import Mathlib

/-!
Verification of the mobile AI agent repository: a shallow embedding of
`ai_agent_core.py` (command classification, entity extraction, command
dispatch, bounded history, frequency learning) and `app_launcher.py`
(catalogue resolution, usage statistics, recency list, favorites), with
theorems settling the specification's claims about them.

Modelling conventions:
* Python strings are Lean `String`; `str.lower()` is `pyLower` and
  `str.strip()` is `pyStrip`, defined over the character list (the
  repository's data is ASCII, where `Char.toLower` and `Char.isWhitespace`
  agree with Python).
* Python's substring test `a in b` is `strIn a b`, membership scans are
  `List.find?` / `List.any` over association lists that keep the insertion
  order of Python dicts.
* `datetime.now().isoformat()` is threaded as an explicit `now : String`
  argument where a claim observes it (the launcher's `last_used`), and
  timestamp fields no claim observes are omitted from result records.
* float Jaccard similarity is computed in `ℚ` (exact; for the character-set
  sizes involved, float division compared against 0.5 agrees with the exact
  rational comparison).
-/

namespace AIAgent

/-- A list-of-characters rendering of the test that one character list starts
with another, used to define Python's substring containment. -/
def isPre : List Char → List Char → Bool
  | [], _ => true
  | _ :: _, [] => false
  | a :: as, b :: bs => a == b && isPre as bs

/-- Substring containment on character lists: the needle occurs at some
position of the haystack.  The empty needle is contained in everything,
as in Python. -/
def substrB (needle : List Char) : List Char → Bool
  | [] => isPre needle []
  | c :: t => isPre needle (c :: t) || substrB needle t

/-- Python's `needle in hay` on strings. -/
def strIn (needle hay : String) : Bool :=
  substrB needle.data hay.data

/-- Python's `str.lower()`, mapped over the character list so that it
reduces in the kernel. -/
def pyLower (s : String) : String :=
  ⟨s.data.map Char.toLower⟩

/-- Python's `str.strip()` with no argument: drop whitespace from both
ends. -/
def pyStrip (s : String) : String :=
  ⟨((s.data.dropWhile Char.isWhitespace).reverse.dropWhile Char.isWhitespace).reverse⟩

/-- Python's `str.split()` with no argument: split on whitespace runs and
drop the empty pieces. -/
def pySplit (s : String) : List String :=
  (s.split fun c => c.isWhitespace).filter (fun w => !(w == ""))

/-- Python truthiness of an optional string: `not x` is true for `None`
and for the empty string. -/
def py_falsy : Option String → Bool
  | none => true
  | some s => s == ""

/-- Python's `l[-n:]` slice: for positive `n` the last `n` elements; `-0`
slices from the start, so `n = 0` keeps the whole list. -/
def pyLastSlice (n : Nat) (l : List α) : List α :=
  if n = 0 then l else l.drop (l.length - n)

/-- Python's `list.remove(x)`: drop the first occurrence. -/
def pyRemove (k : String) : List String → List String
  | [] => []
  | x :: xs => if x == k then xs else x :: pyRemove k xs

/-! ## ai_agent_core.py -/

/-- The `CommandType` enum of `ai_agent_core.py`. -/
inductive CommandType where
  | LAUNCH_APP
  | SYSTEM_CONTROL
  | AUTOMATION
  | QUERY
  | INTEGRATION
deriving DecidableEq

/-- The `value` string of each `CommandType` member. -/
def CommandType.value : CommandType → String
  | .LAUNCH_APP => "launch_app"
  | .SYSTEM_CONTROL => "system_control"
  | .AUTOMATION => "automation"
  | .QUERY => "query"
  | .INTEGRATION => "integration"

/-- The automation keywords checked first by `_analyze_intent`. -/
def kw_auto : List String := ["when", "every", "schedule", "automate"]

/-- The app-launch keywords checked second by `_analyze_intent`. -/
def kw_launch : List String := ["open", "launch", "start"]

/-- The system-control keywords checked third by `_analyze_intent`. -/
def kw_control : List String := ["set", "enable", "disable", "turn"]

/-- The query keywords checked fourth by `_analyze_intent`. -/
def kw_query : List String := ["what", "where", "how", "tell", "show"]

/-- Python's `any(keyword in s for keyword in kws)`. -/
def contains_any (kws : List String) (s : String) : Bool :=
  kws.any (fun k => strIn k s)

/-- `AIAgentCore._analyze_intent`: lower-case the command and test the four
keyword sets in priority order; the default is INTEGRATION. -/
def analyze_intent (command : String) : CommandType :=
  let command_lower := pyLower command
  if contains_any kw_auto command_lower then .AUTOMATION
  else if contains_any kw_launch command_lower then .LAUNCH_APP
  else if contains_any kw_control command_lower then .SYSTEM_CONTROL
  else if contains_any kw_query command_lower then .QUERY
  else .INTEGRATION

/-- The token test `word.lower() in ["open", "launch", "start"]` of
`_extract_entities`. -/
def is_launch_verb (w : String) : Bool :=
  ["open", "launch", "start"].contains (pyLower w)

/-- The entities dictionary built by `_extract_entities` (its `parameters`
field is always left empty by the source and is omitted). -/
structure Entities where
  app_name : Option String
  action : Option String
deriving DecidableEq

/-- The scanning loop of `_extract_entities`: at the first token that is a
launch verb with a following token, record that following token (verbatim)
and the lowered verb and stop; a verb that is the last token sets nothing. -/
def scan_words : List String → Entities
  | [] => ⟨none, none⟩
  | w :: rest =>
    if is_launch_verb w then
      match rest with
      | next :: _ => ⟨some next, some (pyLower w)⟩
      | [] => ⟨none, none⟩
    else scan_words rest

/-- `AIAgentCore._extract_entities`. -/
def extract_entities (command : String) : Entities :=
  scan_words (pySplit command)

/-- The result dictionary of the agent's handlers.  The `timestamp` field
(`datetime.now().isoformat()`), observed by no claim, is omitted. -/
structure CmdResult where
  success : Bool
  action : Option String
  app_name : Option String
  message : Option String
  error : Option String
deriving DecidableEq

/-- `AIAgentCore._launch_app`: fail when the optional name is falsy,
otherwise report a successful (simulated) launch. -/
def launch_app (app_name : Option String) : CmdResult :=
  if py_falsy app_name then
    ⟨false, none, none, none, some "No app name provided"⟩
  else
    ⟨true, some "launch_app", app_name,
      some ("Successfully launched " ++ app_name.getD ""), none⟩

/-- `AIAgentCore._system_control`: always succeeds. -/
def system_control (_entities : Entities) : CmdResult :=
  ⟨true, some "system_control", none, some "System control executed", none⟩

/-- `AIAgentCore._create_automation`: always succeeds. -/
def create_automation (_entities : Entities) : CmdResult :=
  ⟨true, some "create_automation", none, some "Automation rule created", none⟩

/-- `AIAgentCore._process_query`: always succeeds. -/
def process_query (_entities : Entities) : CmdResult :=
  ⟨true, some "process_query", none, some "Query processed", none⟩

/-- `AIAgentCore._handle_integration`: always succeeds. -/
def handle_integration (_entities : Entities) : CmdResult :=
  ⟨true, some "integration", none, some "Integration handled", none⟩

/-- `AIAgentCore._execute_command`: a finite switch over the intent.  (The
source's trailing unknown-type fallback is unreachable over the enum.) -/
def execute_command (intent : CommandType) (entities : Entities) : CmdResult :=
  match intent with
  | .LAUNCH_APP => launch_app entities.app_name
  | .SYSTEM_CONTROL => system_control entities
  | .AUTOMATION => create_automation entities
  | .QUERY => process_query entities
  | .INTEGRATION => handle_integration entities

/-- The configuration fields the agent's logic reads (`learning_enabled`
gates history storage, `max_history` bounds it); the display-only fields
(`wake_word`, `language`, ...) are omitted. -/
structure AgentConfig where
  learning_enabled : Bool
  max_history : Nat
deriving DecidableEq

/-- One entry of `command_history` as `_store_command_history` builds it
(its `timestamp` field is omitted). -/
structure HistEntry where
  command : String
  intent : String
  result : CmdResult
deriving DecidableEq

/-- The mutable state of `AIAgentCore` that the claims observe. -/
structure AgentState where
  config : AgentConfig
  command_history : List HistEntry
deriving DecidableEq

/-- `AIAgentCore._store_command_history`: append the entry, then keep the
last `max_history` entries when the size exceeds the bound (the source's
`history[-max_history:]`). -/
def store_command_history (st : AgentState) (command : String)
    (intent : CommandType) (result : CmdResult) : AgentState :=
  let h := st.command_history ++ [⟨command, intent.value, result⟩]
  let m := st.config.max_history
  ⟨st.config, if h.length > m then pyLastSlice m h else h⟩

/-- `AIAgentCore.process_command`: classify, extract, dispatch, and store
the command in history when learning is enabled.  Returns the handler
result together with the successor state. -/
def process_command (st : AgentState) (command : String) :
    CmdResult × AgentState :=
  let intent := analyze_intent command
  let entities := extract_entities command
  let result := execute_command intent entities
  let st2 :=
    if st.config.learning_enabled then
      store_command_history st command intent result
    else st
  (result, st2)

/-- The history entry `process_command` stores for a command. -/
def mk_entry (command : String) : HistEntry :=
  ⟨command, (analyze_intent command).value,
    execute_command (analyze_intent command) (extract_entities command)⟩

/-- Folding `process_command` over a list of commands. -/
def run_commands (st : AgentState) : List String → AgentState
  | [] => st
  | c :: cs => run_commands (process_command st c).2 cs

/-- The `history_count` field of the document `export_data` writes
(`len(self.command_history)`); the file write itself is not modelled. -/
def history_count (st : AgentState) : Nat :=
  st.command_history.length

/-- The dictionary build of `learn_from_patterns`: count occurrences of
each raw command, keys in first-occurrence order as in a Python dict. -/
def bump (acc : List (String × Nat)) (cmd : String) : List (String × Nat) :=
  if acc.any (fun p => p.1 == cmd) then
    acc.map (fun p => if p.1 == cmd then (p.1, p.2 + 1) else p)
  else acc ++ [(cmd, 1)]

/-- The `command_frequency` dictionary of `learn_from_patterns`, as an
association list in insertion order. -/
def command_frequency (cmds : List String) : List (String × Nat) :=
  cmds.foldl bump []

/-- Python's `sorted(items, key=lambda x: x[1], reverse=True)`: a stable
sort by descending count (insertion sort is stable, and any stable sort by
descending count produces this list). -/
def sortByCountDesc (l : List (String × Nat)) : List (String × Nat) :=
  List.insertionSort (fun a b => b.2 ≤ a.2) l

/-- The `frequent_commands` component of `AIAgentCore.learn_from_patterns`:
empty history yields the empty result, otherwise the top 10 commands by
descending count.  (The `time_patterns` component is the constant
placeholder of `_analyze_time_patterns` and is omitted.) -/
def learn_from_patterns (hist : List HistEntry) : List (String × Nat) :=
  if hist.isEmpty then []
  else (sortByCountDesc (command_frequency (hist.map (fun e => e.command)))).take 10

/-- The keys of a Python dict built by repeated `d.get(k, 0) + 1` updates,
in first-occurrence order: a specification-side description used to state
the tie-break order of `learn_from_patterns`. -/
def firstOccurrences (cmds : List String) : List String :=
  cmds.foldl (fun acc c => if acc.contains c then acc else acc ++ [c]) []

/-! ## app_launcher.py -/

/-- The `AppCategory` enum of `app_launcher.py`. -/
inductive AppCategory where
  | social
  | productivity
  | entertainment
  | communication
  | utility
  | photography
  | shopping
  | health
  | navigation
  | other
deriving DecidableEq

/-- One value of the `installed_apps` dictionary (its constant `icon`
string, observed by no claim, is omitted). -/
structure AppInfo where
  name : String
  package : String
  category : AppCategory
deriving DecidableEq

/-- The catalogue entry for key "gmail". -/
def gmail_info : AppInfo := ⟨"Gmail", "com.google.android.gm", .communication⟩

/-- The catalogue entry for key "chrome". -/
def chrome_info : AppInfo := ⟨"Chrome", "com.android.chrome", .productivity⟩

/-- The catalogue entry for key "camera". -/
def camera_info : AppInfo := ⟨"Camera", "com.android.camera", .photography⟩

/-- The catalogue entry for key "spotify". -/
def spotify_info : AppInfo := ⟨"Spotify", "com.spotify.music", .entertainment⟩

/-- The catalogue entry for key "maps". -/
def maps_info : AppInfo := ⟨"Google Maps", "com.google.android.apps.maps", .navigation⟩

/-- The catalogue entry for key "whatsapp". -/
def whatsapp_info : AppInfo := ⟨"WhatsApp", "com.whatsapp", .communication⟩

/-- The catalogue entry for key "instagram". -/
def instagram_info : AppInfo := ⟨"Instagram", "com.instagram.android", .social⟩

/-- The catalogue entry for key "slack". -/
def slack_info : AppInfo := ⟨"Slack", "com.slack", .productivity⟩

/-- The static app catalogue built by `_initialize_app_database`, as an
association list in the dict's insertion order.  The source stores it on
the instance but never mutates it after initialization. -/
def installed_apps : List (String × AppInfo) :=
  [("gmail", gmail_info), ("chrome", chrome_info), ("camera", camera_info),
   ("spotify", spotify_info), ("maps", maps_info), ("whatsapp", whatsapp_info),
   ("instagram", instagram_info), ("slack", slack_info)]

/-- `AppLauncher._find_app`: three passes over the catalogue, first hit
wins — exact key, then exact lower-cased display name, then substring of
the display name or of the key.  The source returns only the app record;
the entry's key is returned alongside it so that theorems can name the
entry an identifier resolves to. -/
def find_app (apps : List (String × AppInfo)) (app_identifier : String) :
    Option (String × AppInfo) :=
  match apps.find? (fun p => p.1 == app_identifier) with
  | some e => some e
  | none =>
    match apps.find? (fun p => pyLower p.2.name == app_identifier) with
    | some e => some e
    | none =>
      apps.find? (fun p =>
        strIn app_identifier (pyLower p.2.name) || strIn app_identifier p.1)

/-- `AppLauncher._calculate_similarity`: the Jaccard index of the two
strings' character sets, 0 when the union is empty.  Computed in `ℚ`
instead of float; exact for these set sizes. -/
def calculate_similarity (str1 str2 : String) : ℚ :=
  let set1 := (pyLower str1).data.dedup
  let set2 := (pyLower str2).data.dedup
  let intersection := (set1.filter (fun c => set2.contains c)).length
  let union := (set1 ++ set2).dedup.length
  if union > 0 then (intersection : ℚ) / (union : ℚ) else 0

/-- The per-entry test of `_get_similar_apps`: substring of the key, or of
the lower-cased display name, or similarity with the key above 0.5. -/
def similar_cond (app_identifier : String) (p : String × AppInfo) : Bool :=
  strIn app_identifier p.1 || strIn app_identifier (pyLower p.2.name) ||
    decide (calculate_similarity app_identifier p.1 > 1 / 2)

/-- `AppLauncher._get_similar_apps`: display names of the catalogue apps
passing `similar_cond`, in catalogue iteration order, first five only. -/
def get_similar_apps (app_identifier : String) : List String :=
  ((installed_apps.filter (similar_cond app_identifier)).map
    (fun p => p.2.name)).take 5

/-- One value of the `app_usage_stats` dictionary. -/
structure UsageStats where
  launch_count : Nat
  last_used : Option String
  total_time : Nat
deriving DecidableEq

/-- The fresh stats record `_update_usage_stats` creates for an unseen key. -/
def stats_zero : UsageStats := ⟨0, none, 0⟩

/-- `AppLauncher._update_usage_stats`: create the record for the key if
absent, then increment its launch count and set its last-used timestamp. -/
def update_usage_stats (stats : List (String × UsageStats)) (app_key : String)
    (now : String) : List (String × UsageStats) :=
  let stats1 :=
    if stats.any (fun p => p.1 == app_key) then stats
    else stats ++ [(app_key, stats_zero)]
  stats1.map (fun p =>
    if p.1 == app_key then (p.1, ⟨p.2.launch_count + 1, some now, p.2.total_time⟩)
    else p)

/-- The launch count currently stored for a key (0 when no record exists). -/
def lookup_count (stats : List (String × UsageStats)) (k : String) : Nat :=
  match stats.find? (fun p => p.1 == k) with
  | some p => p.2.launch_count
  | none => 0

/-- The last-used timestamp currently stored for a key. -/
def lookup_last_used (stats : List (String × UsageStats)) (k : String) :
    Option String :=
  match stats.find? (fun p => p.1 == k) with
  | some p => p.2.last_used
  | none => none

/-- `AppLauncher._add_to_recent`: remove a prior occurrence, insert at the
front, keep only the first 20. -/
def add_to_recent (recent : List String) (app_key : String) : List String :=
  let recent1 := if recent.contains app_key then pyRemove app_key recent else recent
  (app_key :: recent1).take 20

/-- The mutable state of `AppLauncher` (the immutable catalogue lives in
`installed_apps`). -/
structure LauncherState where
  app_usage_stats : List (String × UsageStats)
  recent_apps : List String
  favorites : List String
deriving DecidableEq

/-- The state `AppLauncher.__init__` builds. -/
def launcherInit : LauncherState := ⟨[], [], []⟩

/-- The apostrophe character of the source's f-string
`f"App '{app_identifier}' not found"`. -/
def squote : String := String.singleton (Char.ofNat 39)

/-- The error message of the launcher's not-found branch. -/
def not_found_msg (app_identifier : String) : String :=
  "App " ++ (squote ++ (app_identifier ++ (squote ++ " not found")))

/-- The result dictionary of `AppLauncher.launch`.  The success branch's
`timestamp` is the threaded `now`; the `deep_link` field (only built when
launch parameters are supplied, which no claim exercises) is omitted. -/
structure LaunchResult where
  success : Bool
  app_name : Option String
  package : Option String
  category : Option AppCategory
  message : Option String
  error : Option String
  suggestions : List String
  timestamp : Option String
deriving DecidableEq

/-- `AppLauncher.launch`: normalize the identifier (lower-case, trim),
resolve it with `find_app`; on a miss fail with suggestions, on a hit
update the usage stats and the recent list — both keyed by the normalized
identifier `app_key`, not by the resolved entry's catalogue key — and
report success. -/
def launch (st : LauncherState) (app_identifier : String) (now : String) :
    LaunchResult × LauncherState :=
  let app_key := pyStrip (pyLower app_identifier)
  match find_app installed_apps app_key with
  | none =>
    (⟨false, none, none, none, none, some (not_found_msg app_identifier),
       get_similar_apps app_key, none⟩, st)
  | some e =>
    (⟨true, some e.2.name, some e.2.package, some e.2.category,
       some ("Successfully launched " ++ e.2.name), none, [], some now⟩,
     ⟨update_usage_stats st.app_usage_stats app_key now,
       add_to_recent st.recent_apps app_key,
       st.favorites⟩)

/-- `AppLauncher.add_to_favorites`: normalize, resolve with the same
(fuzzy) `find_app` used by `launch`, and append the normalized identifier
when an app resolved and it is not already a favorite. -/
def add_to_favorites (st : LauncherState) (app_identifier : String) :
    Bool × LauncherState :=
  let app_key := pyStrip (pyLower app_identifier)
  if (find_app installed_apps app_key).isSome && !(st.favorites.contains app_key) then
    (true, ⟨st.app_usage_stats, st.recent_apps, st.favorites ++ [app_key]⟩)
  else (false, st)

/-- `AppLauncher.switch_to_recent`: fail when the index is out of range,
otherwise re-launch the recent entry at that index. -/
def switch_to_recent (st : LauncherState) (index : Nat) (now : String) :
    LaunchResult × LauncherState :=
  if st.recent_apps.length ≤ index then
    (⟨false, none, none, none, none, some "Invalid recent app index", [], none⟩, st)
  else launch st (st.recent_apps.getD index "") now

/-- One `AppLauncher` call, for stating invariants over call sequences.
`viewOp` stands for the read-only projections (`get_recent_apps`,
`get_favorites`, `get_apps_by_category`, `get_smart_suggestions`,
`_get_frequent_apps`), none of which assigns to the state. -/
inductive LauncherOp where
  | launchOp (id now : String)
  | addFavoriteOp (id : String)
  | switchRecentOp (index : Nat) (now : String)
  | viewOp

/-- The state after one `AppLauncher` call. -/
def apply_op (st : LauncherState) : LauncherOp → LauncherState
  | .launchOp id now => (launch st id now).2
  | .addFavoriteOp id => (add_to_favorites st id).2
  | .switchRecentOp index now => (switch_to_recent st index now).2
  | .viewOp => st

/-- The state after a sequence of `AppLauncher` calls. -/
def run_ops (st : LauncherState) : List LauncherOp → LauncherState
  | [] => st
  | op :: ops => run_ops (apply_op st op) ops

/-- Iterating `launch` with one identifier `n` times. -/
def launch_iter (app_identifier now : String) : Nat → LauncherState → LauncherState
  | 0, st => st
  | n + 1, st => launch_iter app_identifier now n (launch st app_identifier now).2

/-- The invariants of claim C4 as amended: bounded deduplicated recent
list, and favorites that all resolve through `find_app`. -/
def launcherInv (st : LauncherState) : Prop :=
  st.recent_apps.length ≤ 20 ∧ st.recent_apps.Nodup ∧
    ∀ k ∈ st.favorites, (find_app installed_apps k).isSome = true

/-! ## Helper lemmas -/

/-- Keyword membership as an existential over the keyword list. -/
theorem contains_any_iff (kws : List String) (s : String) :
    contains_any kws s = true ↔ ∃ k ∈ kws, strIn k s = true := by
  simp [contains_any, List.any_eq_true]

/-- Tokens produced by `pySplit` are never empty. -/
theorem pySplit_mem_ne_empty {s : String} {w : String} (h : w ∈ pySplit s) :
    w ≠ "" := by
  have h2 := (List.mem_filter.mp h).2
  simpa using h2

/-- An app name returned by `scan_words` is one of the scanned tokens. -/
theorem scan_words_app_name_mem :
    ∀ (l : List String) (n : String), (scan_words l).app_name = some n → n ∈ l := by
  intro l
  induction l with
  | nil => intro n h; simp [scan_words] at h
  | cons w rest ih =>
    intro n h
    by_cases hv : is_launch_verb w = true
    · cases rest with
      | nil => simp [scan_words, hv] at h
      | cons x xs =>
        simp [scan_words, hv] at h
        simp [h]
    · have hv2 : is_launch_verb w = false := by
        revert hv; cases is_launch_verb w <;> simp
      simp only [scan_words, hv2, Bool.false_eq_true, if_false] at h
      exact List.mem_cons_of_mem _ (ih n h)

/-- The scan finds no app name exactly when no token with a successor is a
launch verb. -/
theorem scan_words_none_iff :
    ∀ l : List String,
      (scan_words l).app_name = none ↔
        ∀ i : Nat, i + 1 < l.length → is_launch_verb (l.getD i "") = false := by
  intro l
  induction l with
  | nil => simp [scan_words]
  | cons w rest ih =>
    by_cases hv : is_launch_verb w = true
    · cases rest with
      | nil =>
        simp [scan_words, hv]
      | cons x xs =>
        simp only [scan_words, hv, if_true]
        constructor
        · intro h; cases h
        · intro h
          have h0 := h 0 (by simp)
          simp [hv] at h0
    · have hv2 : is_launch_verb w = false := by
        revert hv; cases is_launch_verb w <;> simp
      simp only [scan_words, hv2, Bool.false_eq_true, if_false]
      rw [ih]
      constructor
      · intro h i hi
        cases i with
        | zero => simpa using hv2
        | succ j =>
          have := h j (by simpa [Nat.succ_lt_succ_iff] using hi)
          simpa using this
      · intro h i hi
        have := h (i + 1) (by simpa [Nat.succ_lt_succ_iff] using hi)
        simpa using this

/-- When the scan finds an app name, some token is a launch verb with a
successor, the name is that successor verbatim, the action is the lowered
verb, and no earlier token is a launch verb (first match wins). -/
theorem scan_words_some_spec :
    ∀ (l : List String) (n : String), (scan_words l).app_name = some n →
      ∃ i : Nat, i + 1 < l.length ∧ is_launch_verb (l.getD i "") = true ∧
        l.getD (i + 1) "" = n ∧
        (scan_words l).action = some (pyLower (l.getD i "")) ∧
        ∀ j : Nat, j < i → is_launch_verb (l.getD j "") = false := by
  intro l
  induction l with
  | nil => intro n h; simp [scan_words] at h
  | cons w rest ih =>
    intro n h
    by_cases hv : is_launch_verb w = true
    · cases rest with
      | nil => simp [scan_words, hv] at h
      | cons x xs =>
        simp only [scan_words, hv, if_true] at h
        have hx : x = n := by simpa using h
        refine ⟨0, by simp, by simpa using hv, by simpa using hx, ?_, ?_⟩
        · simp [scan_words, hv]
        · intro j hj; omega
    · have hv2 : is_launch_verb w = false := by
        revert hv; cases is_launch_verb w <;> simp
      simp only [scan_words, hv2, Bool.false_eq_true, if_false] at h ⊢
      obtain ⟨i, hi, hverb, hname, hact, hfirst⟩ := ih n h
      refine ⟨i + 1, by simpa [Nat.succ_lt_succ_iff] using hi, by simpa using hverb,
        by simpa using hname, by simpa using hact, ?_⟩
      intro j hj
      cases j with
      | zero => simpa using hv2
      | succ j2 =>
        have := hfirst j2 (by omega)
        simpa using this

/-! ## Claim theorems -/

/-- C1: `analyze_intent` is a total function into the five intent tags,
decided in strict priority order over the lower-cased input — AUTOMATION
keywords first, then LAUNCH_APP, then SYSTEM_CONTROL, then QUERY, with
INTEGRATION the default — and any text containing both an automation
keyword and a launch keyword classifies as AUTOMATION. -/
theorem c1_classify_priority (s : String) :
    (analyze_intent s = CommandType.AUTOMATION ↔
      contains_any kw_auto (pyLower s) = true) ∧
    (analyze_intent s = CommandType.LAUNCH_APP ↔
      (contains_any kw_auto (pyLower s) = false ∧
       contains_any kw_launch (pyLower s) = true)) ∧
    (analyze_intent s = CommandType.SYSTEM_CONTROL ↔
      (contains_any kw_auto (pyLower s) = false ∧
       contains_any kw_launch (pyLower s) = false ∧
       contains_any kw_control (pyLower s) = true)) ∧
    (analyze_intent s = CommandType.QUERY ↔
      (contains_any kw_auto (pyLower s) = false ∧
       contains_any kw_launch (pyLower s) = false ∧
       contains_any kw_control (pyLower s) = false ∧
       contains_any kw_query (pyLower s) = true)) ∧
    (analyze_intent s = CommandType.INTEGRATION ↔
      (contains_any kw_auto (pyLower s) = false ∧
       contains_any kw_launch (pyLower s) = false ∧
       contains_any kw_control (pyLower s) = false ∧
       contains_any kw_query (pyLower s) = false)) ∧
    (contains_any kw_auto (pyLower s) = true →
      contains_any kw_launch (pyLower s) = true →
      analyze_intent s = CommandType.AUTOMATION) := by
  cases h1 : contains_any kw_auto (pyLower s) <;>
    cases h2 : contains_any kw_launch (pyLower s) <;>
    cases h3 : contains_any kw_control (pyLower s) <;>
    cases h4 : contains_any kw_query (pyLower s) <;>
    simp [analyze_intent, h1, h2, h3, h4]

/-- C2: on a command classified LAUNCH_APP, `process_command` returns a
failure with the missing-app-name error exactly when entity extraction
produced no app name; on any other classification it returns success.
The extraction itself scans the whitespace-split tokens left-to-right for
the first launch verb: no verb with a successor token means no app name,
and a found app name is the token right after the first verb, verbatim,
with every earlier token not a verb. -/
theorem c2_launch_missing_name (st : AgentState) (t : String) :
    (analyze_intent t = CommandType.LAUNCH_APP →
      (((process_command st t).1.success = false ∧
        (process_command st t).1.error = some "No app name provided") ↔
       (extract_entities t).app_name = none)) ∧
    (analyze_intent t ≠ CommandType.LAUNCH_APP →
      (process_command st t).1.success = true) ∧
    ((extract_entities t).app_name = none ↔
      ∀ i : Nat, i + 1 < (pySplit t).length →
        is_launch_verb ((pySplit t).getD i "") = false) ∧
    (∀ n : String, (extract_entities t).app_name = some n →
      ∃ i : Nat, i + 1 < (pySplit t).length ∧
        is_launch_verb ((pySplit t).getD i "") = true ∧
        (pySplit t).getD (i + 1) "" = n ∧
        (extract_entities t).action = some (pyLower ((pySplit t).getD i "")) ∧
        ∀ j : Nat, j < i → is_launch_verb ((pySplit t).getD j "") = false) := by
  have hres : (process_command st t).1
      = execute_command (analyze_intent t) (extract_entities t) := rfl
  refine ⟨?_, ?_, scan_words_none_iff (pySplit t), fun n h => scan_words_some_spec _ n h⟩
  · intro hint
    rw [hres, hint]
    constructor
    · intro ⟨hsucc, _⟩
      by_contra hne
      obtain ⟨n, hn⟩ := Option.ne_none_iff_exists'.mp hne
      have hmem : n ∈ pySplit t := scan_words_app_name_mem (pySplit t) n hn
      have hnempty : n ≠ "" := pySplit_mem_ne_empty hmem
      have hfalsy : py_falsy (extract_entities t).app_name = false := by
        rw [hn]
        simpa [py_falsy] using hnempty
      simp [execute_command, launch_app, hfalsy] at hsucc
    · intro hnone
      simp [execute_command, launch_app, hnone, py_falsy]
  · intro hint
    rw [hres]
    cases hin : analyze_intent t <;>
      simp_all [execute_command, system_control, create_automation,
        process_query, handle_integration]

/-- For a positive bound, the negative-index slice is a plain drop. -/
theorem pyLastSlice_pos {m : Nat} (hm : 0 < m) (l : List α) :
    pyLastSlice m l = l.drop (l.length - m) := by
  simp [pyLastSlice, Nat.pos_iff_ne_zero.mp hm]

/-- One learning-enabled `process_command` step keeps the configuration and
truncates the appended history to its last `m` entries. -/
theorem process_step_learning (m : Nat) (hm : 0 < m) (hist : List HistEntry)
    (c : String) :
    (process_command ⟨⟨true, m⟩, hist⟩ c).2
      = ⟨⟨true, m⟩, (hist ++ [mk_entry c]).drop ((hist.length + 1) - m)⟩ := by
  have hstep : (process_command ⟨⟨true, m⟩, hist⟩ c).2
      = ⟨⟨true, m⟩, if (hist ++ [mk_entry c]).length > m
            then pyLastSlice m (hist ++ [mk_entry c]) else hist ++ [mk_entry c]⟩ := rfl
  rw [hstep]
  by_cases hgt : (hist ++ [mk_entry c]).length > m
  · rw [if_pos hgt, pyLastSlice_pos hm, List.length_append, List.length_singleton]
  · rw [if_neg hgt]
    have hz : hist.length + 1 - m = 0 := by
      have h2 := Nat.le_of_not_lt hgt
      rw [List.length_append, List.length_singleton] at h2
      omega
    rw [hz, List.drop_zero]

/-- Truncating after every append equals one final truncation: the
arithmetic core of the history-bound argument. -/
theorem drop_sub_append (m : Nat) (l rest : List α) :
    (l.drop (l.length - m) ++ rest).drop ((l.length - (l.length - m) + rest.length) - m)
      = (l ++ rest).drop ((l.length + rest.length) - m) := by
  rcases Nat.le_total l.length m with hle | hge
  · simp [Nat.sub_eq_zero_of_le hle]
  · rw [Nat.sub_sub_self hge]
    rw [show m + rest.length - m = rest.length from by omega]
    have ht : (l.take (l.length - m)).length = l.length - m :=
      (List.length_take _ _).trans (Nat.min_eq_left (Nat.sub_le _ _))
    have hsplit : l ++ rest = l.take (l.length - m) ++ (l.drop (l.length - m) ++ rest) := by
      rw [← List.append_assoc, List.take_append_drop]
    rw [hsplit]
    rw [show l.length + rest.length - m = (l.take (l.length - m)).length + rest.length
        from by rw [ht]; omega]
    rw [List.drop_append]

/-- Folding learning-enabled `process_command` over commands: the final
history is the last `m` of the appended entries, in order. -/
theorem run_commands_hist (m : Nat) (hm : 0 < m) :
    ∀ (cmds : List String) (hist : List HistEntry), hist.length ≤ m →
      (run_commands ⟨⟨true, m⟩, hist⟩ cmds).command_history
        = (hist ++ cmds.map mk_entry).drop ((hist.length + cmds.length) - m) := by
  intro cmds
  induction cmds with
  | nil =>
    intro hist hlen
    simp [run_commands, Nat.sub_eq_zero_of_le hlen]
  | cons c cs ih =>
    intro hist hlen
    show (run_commands (process_command ⟨⟨true, m⟩, hist⟩ c).2 cs).command_history = _
    rw [process_step_learning m hm hist c]
    have hlen2 : ((hist ++ [mk_entry c]).drop ((hist.length + 1) - m)).length ≤ m := by
      rw [List.length_drop, List.length_append, List.length_singleton]
      omega
    rw [ih _ hlen2]
    rw [show hist.length + 1 - m = (hist ++ [mk_entry c]).length - m from by simp]
    rw [List.length_drop]
    have key := drop_sub_append m (hist ++ [mk_entry c]) (cs.map mk_entry)
    rw [List.length_map] at key
    rw [key]
    simp only [List.append_assoc, List.singleton_append, List.map_cons,
      List.length_append, List.length_singleton, List.length_cons, List.length_nil]
    congr 1
    omega

/-- C5: with learning enabled and a positive configured bound `m + 1`,
after processing `N` commands the history holds exactly `min N (m + 1)`
entries — the most recent ones in order, oldest evicted — the exported
`history_count` equals that same number, and with learning disabled
`process_command` leaves the state untouched. -/
theorem c5_history_bound (m : Nat) (cmds : List String) :
    (run_commands ⟨⟨true, m + 1⟩, []⟩ cmds).command_history
        = (cmds.map mk_entry).drop (cmds.length - (m + 1)) ∧
    (run_commands ⟨⟨true, m + 1⟩, []⟩ cmds).command_history.length
        = min cmds.length (m + 1) ∧
    history_count (run_commands ⟨⟨true, m + 1⟩, []⟩ cmds) = min cmds.length (m + 1) ∧
    (∀ (st : AgentState) (c : String), st.config.learning_enabled = false →
        (process_command st c).2 = st) := by
  have h1 := run_commands_hist (m + 1) (Nat.succ_pos m) cmds [] (by simp)
  simp only [List.nil_append, List.length_nil, Nat.zero_add] at h1
  refine ⟨h1, ?_, ?_, ?_⟩
  · rw [h1, List.length_drop, List.length_map]
    omega
  · simp only [history_count]
    rw [h1, List.length_drop, List.length_map]
    omega
  · intro st c h
    simp [process_command, h]

/-- Two strings compare equal with `==` symmetrically. -/
theorem string_beq_comm (a b : String) : (a == b) = (b == a) := by
  by_cases h : a = b
  · simp [h]
  · simp [beq_eq_false_iff_ne.mpr h, beq_eq_false_iff_ne.mpr (Ne.symm h)]

/-- Appending an element bumps its own count by one. -/
theorem count_append_singleton_self (l : List String) (c : String) :
    (l ++ [c]).count c = l.count c + 1 := by
  simp [List.count_append, List.count_singleton]

/-- Appending an element leaves other counts unchanged. -/
theorem count_append_singleton_ne {x c : String} (h : x ≠ c) (l : List String) :
    (l ++ [c]).count x = l.count x := by
  have hcx : (c == x) = false := beq_eq_false_iff_ne.mpr (Ne.symm h)
  simp [List.count_append, List.count_singleton, hcx]

/-- Scanning an association list for a key equals membership in its key
projection. -/
theorem any_fst_eq_contains (acc : List (String × Nat)) (c : String) :
    acc.any (fun p => p.1 == c) = (acc.map Prod.fst).contains c := by
  induction acc with
  | nil => rfl
  | cons p ps ih =>
    simp only [List.any_cons, List.map_cons, List.contains_cons, ih,
      string_beq_comm p.1 c]

/-- The in-place update step of `bump` keeps the key projection. -/
theorem bump_map_fst (acc : List (String × Nat)) (c : String) :
    ((acc.map (fun p => if p.1 == c then (p.1, p.2 + 1) else p)).map Prod.fst)
      = acc.map Prod.fst := by
  rw [List.map_map]
  apply List.map_congr_left
  intro p _
  by_cases h : (p.1 == c) = true <;> simp [Function.comp, h]

/-- The dictionary-building invariant of `learn_from_patterns`: distinct
keys, each value the occurrence count of its key in the commands seen so
far, every value positive, and a key present for every command seen. -/
theorem freq_inv :
    ∀ (rest : List String) (acc : List (String × Nat)) (processed : List String),
      (acc.map Prod.fst).Nodup →
      (∀ p ∈ acc, p.2 = processed.count p.1 ∧ 0 < p.2) →
      (∀ c, processed.count c ≠ 0 → c ∈ acc.map Prod.fst) →
      ((List.foldl bump acc rest).map Prod.fst).Nodup ∧
      (∀ p ∈ List.foldl bump acc rest, p.2 = (processed ++ rest).count p.1 ∧ 0 < p.2) ∧
      (∀ c, (processed ++ rest).count c ≠ 0 →
        c ∈ (List.foldl bump acc rest).map Prod.fst) := by
  intro rest
  induction rest with
  | nil =>
    intro acc processed h1 h2 h3
    simp only [List.foldl_nil, List.append_nil]
    exact ⟨h1, h2, h3⟩
  | cons c cs ih =>
    intro acc processed h1 h2 h3
    have hstep :
        ((bump acc c).map Prod.fst).Nodup ∧
        (∀ p ∈ bump acc c, p.2 = (processed ++ [c]).count p.1 ∧ 0 < p.2) ∧
        (∀ c2, (processed ++ [c]).count c2 ≠ 0 → c2 ∈ (bump acc c).map Prod.fst) := by
      by_cases hmem : acc.any (fun p => p.1 == c) = true
      · refine ⟨?_, ?_, ?_⟩
        · rw [bump, if_pos hmem, bump_map_fst]
          exact h1
        · intro p hp
          rw [bump, if_pos hmem] at hp
          obtain ⟨q, hq, hqp⟩ := List.mem_map.mp hp
          by_cases hqc : q.1 = c
          · rw [if_pos (by simpa using hqc)] at hqp
            subst hqp
            have hq2 := h2 q hq
            refine ⟨?_, by omega⟩
            show q.2 + 1 = _
            rw [hq2.1, hqc, count_append_singleton_self]
          · rw [if_neg (by simpa using hqc)] at hqp
            subst hqp
            have hq2 := h2 q hq
            exact ⟨by rw [hq2.1, count_append_singleton_ne hqc], hq2.2⟩
        · intro c2 hc2
          rw [bump, if_pos hmem, bump_map_fst]
          by_cases hcc : c2 = c
          · subst hcc
            obtain ⟨q, hq, hqc⟩ := List.any_eq_true.mp hmem
            exact List.mem_map.mpr ⟨q, hq, by simpa using hqc⟩
          · exact h3 c2 (by rwa [count_append_singleton_ne hcc] at hc2)
      · have hmem2 : acc.any (fun p => p.1 == c) = false := by
          revert hmem; cases acc.any (fun p => p.1 == c) <;> simp
        have hnot : ∀ p ∈ acc, p.1 ≠ c := by
          intro p hp
          have := List.any_eq_false.mp hmem2 p hp
          simpa using this
        have hcnot : c ∉ acc.map Prod.fst := by
          intro hin
          obtain ⟨q, hq, hqc⟩ := List.mem_map.mp hin
          exact hnot q hq hqc
        have hzero : processed.count c = 0 := by
          by_contra hz
          exact hcnot (h3 c hz)
        rw [bump, if_neg hmem]
        refine ⟨?_, ?_, ?_⟩
        · rw [List.map_append]
          rw [List.nodup_append]
          refine ⟨h1, by simp, ?_⟩
          intro x hx hx2
          simp at hx2
          subst hx2
          exact hcnot hx
        · intro p hp
          rcases List.mem_append.mp hp with hold | hnew
          · have hp2 := h2 p hold
            exact ⟨by rw [hp2.1, count_append_singleton_ne (hnot p hold)], hp2.2⟩
          · have hp2 : p = (c, 1) := by simpa using hnew
            subst hp2
            simp [count_append_singleton_self, hzero]
        · intro c2 hc2
          rw [List.map_append]
          by_cases hcc : c2 = c
          · subst hcc
            simp
          · exact List.mem_append.mpr
              (Or.inl (h3 c2 (by rwa [count_append_singleton_ne hcc] at hc2)))
    have hrec := ih (bump acc c) (processed ++ [c]) hstep.1 hstep.2.1 hstep.2.2
    have hassoc : (processed ++ [c]) ++ cs = processed ++ (c :: cs) := by
      rw [List.append_assoc]
      rfl
    rw [hassoc] at hrec
    exact hrec

/-- The keys of the frequency dictionary are the commands in
first-occurrence order. -/
theorem command_frequency_keys (cmds : List String) :
    (command_frequency cmds).map Prod.fst = firstOccurrences cmds := by
  suffices h : ∀ (rest : List String) (acc : List (String × Nat)),
      (List.foldl bump acc rest).map Prod.fst
        = List.foldl (fun a c => if a.contains c then a else a ++ [c])
            (acc.map Prod.fst) rest by
    exact h cmds []
  intro rest
  induction rest with
  | nil => intro acc; rfl
  | cons c cs ih =>
    intro acc
    show (List.foldl bump (bump acc c) cs).map Prod.fst = _
    rw [ih (bump acc c)]
    have hkeys : (bump acc c).map Prod.fst =
        if (acc.map Prod.fst).contains c then acc.map Prod.fst
        else acc.map Prod.fst ++ [c] := by
      by_cases hm : acc.any (fun p => p.1 == c) = true
      · have hc : (acc.map Prod.fst).contains c = true := by
          rw [← any_fst_eq_contains]; exact hm
        rw [bump, if_pos hm, bump_map_fst, hc]
        simp
      · have hm2 : acc.any (fun p => p.1 == c) = false := by
          revert hm; cases acc.any (fun p => p.1 == c) <;> simp
        have hc : (acc.map Prod.fst).contains c = false := by
          rw [← any_fst_eq_contains]; exact hm2
        rw [bump, if_neg hm, List.map_append, hc]
        simp
    rw [hkeys]
    rfl

/-- The stable descending sort really sorts by descending count. -/
theorem sortByCountDesc_sorted (l : List (String × Nat)) :
    List.Pairwise (fun p q : String × Nat => q.2 ≤ p.2) (sortByCountDesc l) := by
  letI : IsTotal (String × Nat) (fun a b => b.2 ≤ a.2) :=
    ⟨fun a b => Nat.le_total b.2 a.2⟩
  letI : IsTrans (String × Nat) (fun a b => b.2 ≤ a.2) :=
    ⟨fun _ _ _ h1 h2 => le_trans h2 h1⟩
  exact List.sorted_insertionSort _ l

/-- The sorted output is a permutation of the frequency list. -/
theorem sortByCountDesc_perm (l : List (String × Nat)) :
    (sortByCountDesc l).Perm l :=
  List.perm_insertionSort _ l

/-- Inserting an element into the sort leaves the entries of any fixed
count in their order: the inserted element passes only strictly larger
counts, so it lands in front of every equal-count entry. -/
theorem filter_orderedInsert (c : Nat) (x : String × Nat)
    (l : List (String × Nat)) :
    (List.orderedInsert (fun a b : String × Nat => b.2 ≤ a.2) x l).filter
        (fun p => p.2 == c)
      = if x.2 == c then x :: l.filter (fun p => p.2 == c)
        else l.filter (fun p => p.2 == c) := by
  induction l with
  | nil =>
    by_cases hx : (x.2 == c) = true <;>
      simp [List.orderedInsert, List.filter_cons, hx]
  | cons y ys ih =>
    by_cases hr : y.2 ≤ x.2
    · by_cases hx : (x.2 == c) = true <;>
        simp [List.orderedInsert, hr, List.filter_cons, hx]
    · by_cases hx : (x.2 == c) = true
      · have hyc : (y.2 == c) = false := by
          have hx2 : x.2 = c := by simpa using hx
          have : y.2 ≠ c := fun hy2 => hr (by omega)
          simpa using this
        simp [List.orderedInsert, hr, List.filter_cons, hx, hyc, ih]
      · have hx2 : (x.2 == c) = false := by
          revert hx; cases (x.2 == c) <;> simp
        by_cases hy : (y.2 == c) = true <;>
          simp [List.orderedInsert, hr, List.filter_cons, hx2, hy, ih]

/-- Stability of the sort: restricting to any fixed count returns the
frequency entries of that count in their original, first-occurrence,
order. -/
theorem filter_sortByCountDesc (l : List (String × Nat)) (c : Nat) :
    (sortByCountDesc l).filter (fun p => p.2 == c)
      = l.filter (fun p => p.2 == c) := by
  induction l with
  | nil => rfl
  | cons x xs ih =>
    show (List.orderedInsert _ x (List.insertionSort _ xs)).filter _ = _
    rw [filter_orderedInsert, List.filter_cons]
    have ih2 : (List.insertionSort (fun a b : String × Nat => b.2 ≤ a.2) xs).filter
        (fun p => p.2 == c) = xs.filter (fun p => p.2 == c) := ih
    by_cases hx : (x.2 == c) = true <;> simp [hx, ih2]

/-- C9: `learn_from_patterns` returns the command-to-count mapping
restricted to the top 10 by descending count: at most 10 entries, each
entry's count the number of occurrences of its command in the history,
orders sorted descending, keys of the underlying frequency dictionary in
first-occurrence order, and ties between equal counts kept in that
first-occurrence order (the count-restricted sort output equals the
count-restricted dictionary).  The result is a pure function of the full
history, so it is recomputed from it on every call. -/
theorem c9_frequent_commands (hist : List HistEntry) :
    learn_from_patterns hist
        = (sortByCountDesc (command_frequency (hist.map (fun e => e.command)))).take 10 ∧
    (learn_from_patterns hist).length ≤ 10 ∧
    (∀ p ∈ learn_from_patterns hist,
        p.2 = (hist.map (fun e => e.command)).count p.1 ∧ 0 < p.2) ∧
    List.Pairwise (fun p q : String × Nat => q.2 ≤ p.2) (learn_from_patterns hist) ∧
    (command_frequency (hist.map (fun e => e.command))).map Prod.fst
        = firstOccurrences (hist.map (fun e => e.command)) ∧
    (∀ c : Nat,
        (sortByCountDesc (command_frequency (hist.map (fun e => e.command)))).filter
            (fun p => p.2 == c)
          = (command_frequency (hist.map (fun e => e.command))).filter
              (fun p => p.2 == c)) := by
  have hlearn : learn_from_patterns hist
      = (sortByCountDesc (command_frequency (hist.map (fun e => e.command)))).take 10 := by
    by_cases h : hist.isEmpty = true
    · have : hist = [] := by cases hist <;> simp_all
      subst this
      rfl
    · rw [learn_from_patterns, if_neg (by simpa using h)]
  refine ⟨hlearn, ?_, ?_, ?_, command_frequency_keys _, fun c => filter_sortByCountDesc _ c⟩
  · rw [hlearn]
    exact List.length_take_le _ _
  · intro p hp
    rw [hlearn] at hp
    have hp2 : p ∈ sortByCountDesc (command_frequency (hist.map (fun e => e.command))) :=
      List.Sublist.mem hp (List.take_sublist _ _)
    have hp3 : p ∈ command_frequency (hist.map (fun e => e.command)) :=
      (sortByCountDesc_perm _).mem_iff.mp hp2
    have hfreq := freq_inv (hist.map (fun e => e.command)) [] [] (by simp)
      (by intro q hq; cases hq) (by intro c2 hc2; simp at hc2)
    exact hfreq.2.1 p (by simpa using hp3)
  · rw [hlearn]
    exact List.Pairwise.sublist (List.take_sublist _ _) (sortByCountDesc_sorted _)

/-- Searching the bumped statistics list for a key searches the original
list: the bump keeps every key. -/
theorem find?_update_map (k now k' : String) (s : List (String × UsageStats)) :
    (s.map (fun p => if p.1 == k
        then (p.1, ⟨p.2.launch_count + 1, some now, p.2.total_time⟩) else p)).find?
        (fun p => p.1 == k')
      = (s.find? (fun p => p.1 == k')).map (fun p => if p.1 == k
          then (p.1, ⟨p.2.launch_count + 1, some now, p.2.total_time⟩) else p) := by
  rw [List.find?_map]
  have hpred : ((fun p : String × UsageStats => p.1 == k') ∘ fun p =>
      if p.1 == k
      then (p.1, (⟨p.2.launch_count + 1, some now, p.2.total_time⟩ : UsageStats))
      else p) = fun p : String × UsageStats => p.1 == k' := by
    funext q
    by_cases h : (q.1 == k) = true <;> simp [Function.comp, h]
  rw [hpred]

/-- Updating the statistics for one key bumps exactly that key's launch
count by one and leaves every other count unchanged (the record is created
at zero first when absent). -/
theorem update_stats_count (s : List (String × UsageStats)) (k now k' : String) :
    lookup_count (update_usage_stats s k now) k'
      = lookup_count s k' + (if k' = k then 1 else 0) := by
  have hs1 : ∀ s1 : List (String × UsageStats),
      lookup_count (s1.map (fun p => if p.1 == k
          then (p.1, ⟨p.2.launch_count + 1, some now, p.2.total_time⟩) else p)) k'
        = match s1.find? (fun p => p.1 == k') with
          | some q => if q.1 == k then q.2.launch_count + 1 else q.2.launch_count
          | none => 0 := by
    intro s1
    rw [lookup_count, find?_update_map]
    cases hf : s1.find? (fun p => p.1 == k') with
    | none => rfl
    | some q =>
      by_cases hq : (q.1 == k) = true
      · have hq2 : q.1 = k := by simpa using hq
        simp [hq, hq2]
      · have hq2 : ¬ q.1 = k := by simpa using hq
        simp [hq, hq2]
  by_cases hk : k' = k
  · subst hk
    by_cases hmem : s.any (fun p => p.1 == k') = true
    · rw [update_usage_stats, if_pos hmem, hs1]
      obtain ⟨q, hqmem, hq⟩ := List.any_eq_true.mp hmem
      have : (s.find? (fun p => p.1 == k')).isSome := by
        rw [List.find?_isSome]
        exact ⟨q, hqmem, hq⟩
      obtain ⟨r, hr⟩ := Option.isSome_iff_exists.mp this
      rw [hr]
      have := List.find?_some hr
      simp [lookup_count, hr, this]
    · rw [update_usage_stats, if_neg hmem, hs1]
      have hmem2 : s.any (fun p => p.1 == k') = false := Bool.eq_false_iff.mpr hmem
      have hnone : s.find? (fun p => p.1 == k') = none := by
        rw [List.find?_eq_none]
        intro x hx
        exact List.any_eq_false.mp hmem2 x hx
      have hsingle : List.find? (fun p : String × UsageStats => p.1 == k') [(k', stats_zero)]
          = some (k', stats_zero) := by simp
      rw [List.find?_append, hnone, Option.none_or, hsingle]
      simp [lookup_count, hnone, stats_zero]
  · have hbk : ∀ q : String × UsageStats, q.1 = k' → (q.1 == k) = false := by
      intro q hq
      exact beq_eq_false_iff_ne.mpr (by rw [hq]; exact hk)
    by_cases hmem : s.any (fun p => p.1 == k) = true
    · rw [update_usage_stats, if_pos hmem, hs1]
      cases hf : s.find? (fun p => p.1 == k') with
      | none => simp [lookup_count, hf, hk]
      | some q =>
        have hq1 : q.1 = k' := by simpa using List.find?_some hf
        simp [lookup_count, hf, hbk q hq1, hk]
    · rw [update_usage_stats, if_neg hmem, hs1]
      have happ : (s ++ [(k, stats_zero)]).find? (fun p => p.1 == k')
          = s.find? (fun p => p.1 == k') := by
        rw [List.find?_append]
        have h2 : ([(k, stats_zero)].find? (fun p => p.1 == k')) = none := by
          rw [List.find?_eq_none]
          intro x hx
          have : x = (k, stats_zero) := by simpa using hx
          subst this
          simp
          exact fun h => hk h.symm
        rw [h2]
        cases s.find? (fun p => p.1 == k') <;> rfl
      rw [happ]
      cases hf : s.find? (fun p => p.1 == k') with
      | none => simp [lookup_count, hf, hk]
      | some q =>
        have hq1 : q.1 = k' := by simpa using List.find?_some hf
        simp [lookup_count, hf, hbk q hq1, hk]

/-- Updating the statistics for a key records the supplied timestamp as
that key's last-used time. -/
theorem update_stats_last (s : List (String × UsageStats)) (k now : String) :
    lookup_last_used (update_usage_stats s k now) k = some now := by
  have hcontains : ∀ s1 : List (String × UsageStats),
      (s1.find? (fun p => p.1 == k)).isSome = true →
      lookup_last_used (s1.map (fun p => if p.1 == k
          then (p.1, ⟨p.2.launch_count + 1, some now, p.2.total_time⟩) else p)) k
        = some now := by
    intro s1 hsome
    rw [lookup_last_used, find?_update_map]
    obtain ⟨q, hq⟩ := Option.isSome_iff_exists.mp hsome
    rw [hq]
    have hq2 : q.1 = k := by simpa using List.find?_some hq
    simp [hq2]
  by_cases hmem : s.any (fun p => p.1 == k) = true
  · rw [update_usage_stats, if_pos hmem]
    apply hcontains
    rw [List.find?_isSome]
    exact List.any_eq_true.mp hmem
  · rw [update_usage_stats, if_neg hmem]
    apply hcontains
    rw [List.find?_isSome]
    exact ⟨(k, stats_zero), by simp, by simp⟩

/-- The launch result and successor state on a resolution hit. -/
theorem launch_found {st : LauncherState} {id now : String} {e : String × AppInfo}
    (h : find_app installed_apps (pyStrip (pyLower id)) = some e) :
    launch st id now
      = (⟨true, some e.2.name, some e.2.package, some e.2.category,
          some ("Successfully launched " ++ e.2.name), none, [], some now⟩,
         ⟨update_usage_stats st.app_usage_stats (pyStrip (pyLower id)) now,
          add_to_recent st.recent_apps (pyStrip (pyLower id)),
          st.favorites⟩) := by
  simp [launch, h]

/-- The launch result and unchanged state on a resolution miss. -/
theorem launch_not_found {st : LauncherState} {id now : String}
    (h : find_app installed_apps (pyStrip (pyLower id)) = none) :
    launch st id now
      = (⟨false, none, none, none, none, some (not_found_msg id),
          get_similar_apps (pyStrip (pyLower id)), none⟩, st) := by
  simp [launch, h]

/-- A substring of the haystack is a substring after extending the
haystack on the left. -/
theorem substr_append_right (pre : List Char) {n hay : List Char}
    (h : substrB n hay = true) : substrB n (pre ++ hay) = true := by
  induction pre with
  | nil => simpa using h
  | cons c t ih =>
    show substrB n (c :: (t ++ hay)) = true
    rw [substrB]
    simp [ih]

/-- The not-found error message contains the text "not found" for every
identifier. -/
theorem strIn_not_found (id : String) :
    strIn "not found" (not_found_msg id) = true := by
  rw [strIn, not_found_msg]
  rw [String.data_append, String.data_append, String.data_append]
  apply substr_append_right
  apply substr_append_right
  apply substr_append_right
  decide

/-- C6: `launch` resolves the trimmed, lower-cased identifier in a fixed
order with the first hit winning — exact catalogue key, then exact
lower-cased display name, then substring of the display name or key in
catalogue iteration order — succeeds exactly when some step hits, reports
that entry's fields, and in particular "gmail", "Gmail" and "GMAIL" all
resolve to the same catalogue entry. -/
theorem c6_resolution_order (st : LauncherState) (now id : String) :
    ((launch st id now).1.success
        = (find_app installed_apps (pyStrip (pyLower id))).isSome) ∧
    (∀ e : String × AppInfo, find_app installed_apps (pyStrip (pyLower id)) = some e →
      (launch st id now).1.app_name = some e.2.name ∧
      (launch st id now).1.package = some e.2.package ∧
      (launch st id now).1.category = some e.2.category) ∧
    (∀ e : String × AppInfo,
      installed_apps.find? (fun p => p.1 == pyStrip (pyLower id)) = some e →
      find_app installed_apps (pyStrip (pyLower id)) = some e) ∧
    (installed_apps.find? (fun p => p.1 == pyStrip (pyLower id)) = none →
      ∀ e : String × AppInfo,
        installed_apps.find? (fun p => pyLower p.2.name == pyStrip (pyLower id)) = some e →
        find_app installed_apps (pyStrip (pyLower id)) = some e) ∧
    (installed_apps.find? (fun p => p.1 == pyStrip (pyLower id)) = none →
      installed_apps.find? (fun p => pyLower p.2.name == pyStrip (pyLower id)) = none →
      find_app installed_apps (pyStrip (pyLower id))
        = installed_apps.find? (fun p =>
            strIn (pyStrip (pyLower id)) (pyLower p.2.name) ||
            strIn (pyStrip (pyLower id)) p.1)) ∧
    (find_app installed_apps (pyStrip (pyLower "gmail")) = some ("gmail", gmail_info) ∧
     find_app installed_apps (pyStrip (pyLower "Gmail")) = some ("gmail", gmail_info) ∧
     find_app installed_apps (pyStrip (pyLower "GMAIL")) = some ("gmail", gmail_info)) := by
  refine ⟨?_, ?_, ?_, ?_, ?_, by decide, by decide, by decide⟩
  · cases hfa : find_app installed_apps (pyStrip (pyLower id)) with
    | some e => rw [launch_found hfa]; rfl
    | none => rw [launch_not_found hfa]; rfl
  · intro e he
    rw [launch_found he]
    exact ⟨rfl, rfl, rfl⟩
  · intro e he
    simp [find_app, he]
  · intro h1 e h2
    simp [find_app, h1, h2]
  · intro h1 h2
    simp [find_app, h1, h2]

/-- C7: for an identifier resolving to no catalogue entry, `launch` fails
with an error containing "not found", leaves the state unchanged, and
returns at most five suggestions, each the display name of a catalogue app
passing the substring-or-Jaccard test in catalogue iteration order. -/
theorem c7_not_found_suggestions (st : LauncherState) (id now : String)
    (h : find_app installed_apps (pyStrip (pyLower id)) = none) :
    (launch st id now).1.success = false ∧
    (launch st id now).1.error = some (not_found_msg id) ∧
    strIn "not found" (not_found_msg id) = true ∧
    (launch st id now).1.suggestions = get_similar_apps (pyStrip (pyLower id)) ∧
    (launch st id now).1.suggestions.length ≤ 5 ∧
    (∀ s : String, s ∈ (launch st id now).1.suggestions →
      ∃ e ∈ installed_apps, s = e.2.name ∧
        similar_cond (pyStrip (pyLower id)) e = true) ∧
    (launch st id now).2 = st := by
  rw [launch_not_found h]
  refine ⟨rfl, rfl, strIn_not_found id, rfl, ?_, ?_, rfl⟩
  · show (get_similar_apps (pyStrip (pyLower id))).length ≤ 5
    rw [get_similar_apps]
    exact List.length_take_le _ _
  · intro s hs
    have hs1 : s ∈ get_similar_apps (pyStrip (pyLower id)) := hs
    rw [get_similar_apps] at hs1
    have hs2 := List.Sublist.mem hs1 (List.take_sublist _ _)
    obtain ⟨e, he, hname⟩ := List.mem_map.mp hs2
    have hef := List.mem_filter.mp he
    exact ⟨e, hef.1, hname.symm, hef.2⟩

/-- Witness for C7 at the spec's own example: `launch("xyz123")` fails
with "not found" and at most five suggestions. -/
theorem c7_witness :
    (launch launcherInit "xyz123" "t0").1.success = false ∧
    (launch launcherInit "xyz123" "t0").1.error = some (not_found_msg "xyz123") ∧
    strIn "not found" (not_found_msg "xyz123") = true ∧
    (launch launcherInit "xyz123" "t0").1.suggestions
        = get_similar_apps (pyStrip (pyLower "xyz123")) ∧
    (launch launcherInit "xyz123" "t0").1.suggestions.length ≤ 5 ∧
    (∀ s : String, s ∈ (launch launcherInit "xyz123" "t0").1.suggestions →
      ∃ e ∈ installed_apps, s = e.2.name ∧
        similar_cond (pyStrip (pyLower "xyz123")) e = true) ∧
    (launch launcherInit "xyz123" "t0").2 = launcherInit :=
  c7_not_found_suggestions launcherInit "xyz123" "t0" (by decide)

/-- C10: an identifier that normalizes to the empty string always
resolves — the empty string is a substring of every key — to the first
catalogue entry, gmail, so such a launch succeeds and the not-found
branch is unreachable. -/
theorem c10_empty_identifier (st : LauncherState) (id now : String)
    (h : pyStrip (pyLower id) = "") :
    find_app installed_apps (pyStrip (pyLower id)) = some ("gmail", gmail_info) ∧
    (launch st id now).1.success = true ∧
    (launch st id now).1.error = none ∧
    (launch st id now).1.app_name = some "Gmail" := by
  have hfind : find_app installed_apps (pyStrip (pyLower id))
      = some ("gmail", gmail_info) := by
    rw [h]
    decide
  rw [launch_found hfind]
  exact ⟨hfind, rfl, rfl, rfl⟩

/-- Witness for C10 at an all-whitespace identifier. -/
theorem c10_witness :
    find_app installed_apps (pyStrip (pyLower " ")) = some ("gmail", gmail_info) ∧
    (launch launcherInit " " "t0").1.success = true ∧
    (launch launcherInit " " "t0").1.error = none ∧
    (launch launcherInit " " "t0").1.app_name = some "Gmail" :=
  c10_empty_identifier launcherInit " " "t0" (by decide)

/-- Counterexample to C3 as stated: `launch("google maps")` resolves (by
display name) to the catalogue entry with key "maps", yet the usage stats
and the recent list record the normalized identifier "google maps", not
the resolved key — the count stored for "maps" stays 0. -/
theorem c3_counterexample :
    find_app installed_apps (pyStrip (pyLower "google maps"))
        = some ("maps", maps_info) ∧
    (launch launcherInit "google maps" "t0").1.success = true ∧
    (launch launcherInit "google maps" "t0").2.app_usage_stats.map Prod.fst
        = ["google maps"] ∧
    lookup_count (launch launcherInit "google maps" "t0").2.app_usage_stats "maps"
        = 0 ∧
    lookup_last_used
        (launch launcherInit "google maps" "t0").2.app_usage_stats "maps" = none ∧
    (launch launcherInit "google maps" "t0").2.recent_apps = ["google maps"] := by
  decide

/-- C3 as amended: every successful `launch` keys its bookkeeping by the
normalized identifier — that identifier's launch count goes up by one
(record created at zero when absent), its last-used time is set to now,
it moves to the front of the recent list via `add_to_recent`, every other
count is untouched, and `n` successful launches of one identifier from the
initial state leave that identifier's count at exactly `n`.  When the
identifier is itself the catalogue key (resolution step one), this is the
claim's original statement. -/
theorem c3_stats_keyed_by_identifier (st : LauncherState) (id now : String) :
    ((launch st id now).1.success = true →
      lookup_count (launch st id now).2.app_usage_stats (pyStrip (pyLower id))
          = lookup_count st.app_usage_stats (pyStrip (pyLower id)) + 1 ∧
      lookup_last_used (launch st id now).2.app_usage_stats (pyStrip (pyLower id))
          = some now ∧
      (launch st id now).2.recent_apps
          = add_to_recent st.recent_apps (pyStrip (pyLower id)) ∧
      (launch st id now).2.recent_apps.head? = some (pyStrip (pyLower id)) ∧
      (launch st id now).2.favorites = st.favorites) ∧
    (∀ k : String, k ≠ pyStrip (pyLower id) →
      lookup_count (launch st id now).2.app_usage_stats k
          = lookup_count st.app_usage_stats k) ∧
    ((find_app installed_apps (pyStrip (pyLower id))).isSome = true →
      ∀ n : Nat,
        lookup_count (launch_iter id now n launcherInit).app_usage_stats
            (pyStrip (pyLower id)) = n) := by
  refine ⟨?_, ?_, ?_⟩
  · intro hsucc
    cases hfa : find_app installed_apps (pyStrip (pyLower id)) with
    | none =>
      rw [launch_not_found hfa] at hsucc
      simp at hsucc
    | some e =>
      rw [launch_found hfa]
      refine ⟨?_, update_stats_last _ _ _, rfl, ?_, rfl⟩
      · show lookup_count (update_usage_stats st.app_usage_stats
            (pyStrip (pyLower id)) now) (pyStrip (pyLower id)) = _
        rw [update_stats_count]
        simp
      · show (add_to_recent st.recent_apps (pyStrip (pyLower id))).head? = _
        rw [add_to_recent]
        rw [show (20 : Nat) = 19 + 1 from rfl, List.take_succ_cons, List.head?_cons]
  · intro k hk
    cases hfa : find_app installed_apps (pyStrip (pyLower id)) with
    | none => rw [launch_not_found hfa]
    | some e =>
      rw [launch_found hfa]
      show lookup_count (update_usage_stats st.app_usage_stats
          (pyStrip (pyLower id)) now) k = _
      rw [update_stats_count]
      simp [hk]
  · intro hsome
    obtain ⟨e, he⟩ := Option.isSome_iff_exists.mp hsome
    have haux : ∀ (n : Nat) (st0 : LauncherState),
        lookup_count (launch_iter id now n st0).app_usage_stats (pyStrip (pyLower id))
          = lookup_count st0.app_usage_stats (pyStrip (pyLower id)) + n := by
      intro n
      induction n with
      | zero => intro st0; simp [launch_iter]
      | succ n ihn =>
        intro st0
        show lookup_count (launch_iter id now n
            (launch st0 id now).2).app_usage_stats _ = _
        rw [ihn, launch_found he]
        show lookup_count (update_usage_stats st0.app_usage_stats
            (pyStrip (pyLower id)) now) (pyStrip (pyLower id)) + n = _
        rw [update_stats_count]
        simp
        omega
    intro n
    rw [haux n launcherInit]
    simp [launcherInit, lookup_count]

/-- Counterexample to C8 as stated: `add_to_favorites("google maps")`
resolves through the fuzzy `find_app` (display-name match), returns true,
and appends the normalized identifier "google maps", which is not a
catalogue key at all. -/
theorem c8_counterexample :
    (add_to_favorites launcherInit "google maps").1 = true ∧
    (add_to_favorites launcherInit "google maps").2.favorites = ["google maps"] ∧
    (installed_apps.map Prod.fst).contains (pyStrip (pyLower "google maps"))
        = false := by
  decide

/-- C8 as amended: `add_to_favorites` resolves its normalized identifier
through the same fuzzy `find_app` as `launch` (not by exact key only),
returns false when nothing resolves or the identifier is already a
favorite, and otherwise appends the normalized identifier and returns
true; adding the same identifier twice returns true then false and grows
the favorites length by exactly one, as the concrete "gmail" run shows. -/
theorem c8_add_to_favorites (st : LauncherState) (id : String) :
    ((add_to_favorites st id).1 = true ↔
      ((find_app installed_apps (pyStrip (pyLower id))).isSome = true ∧
        st.favorites.contains (pyStrip (pyLower id)) = false)) ∧
    ((add_to_favorites st id).1 = true →
      (add_to_favorites st id).2.favorites
          = st.favorites ++ [pyStrip (pyLower id)]) ∧
    ((add_to_favorites st id).1 = false → (add_to_favorites st id).2 = st) ∧
    ((add_to_favorites st id).1 = true →
      (add_to_favorites (add_to_favorites st id).2 id).1 = false ∧
      (add_to_favorites (add_to_favorites st id).2 id).2.favorites.length
          = st.favorites.length + 1) ∧
    ((add_to_favorites launcherInit "gmail").1 = true ∧
     (add_to_favorites (add_to_favorites launcherInit "gmail").2 "gmail").1 = false ∧
     (add_to_favorites
        (add_to_favorites launcherInit "gmail").2 "gmail").2.favorites.length = 1) := by
  refine ?_
  by_cases hc : ((find_app installed_apps (pyStrip (pyLower id))).isSome &&
      !(st.favorites.contains (pyStrip (pyLower id)))) = true
  · have heq : add_to_favorites st id
        = (true, ⟨st.app_usage_stats, st.recent_apps,
            st.favorites ++ [pyStrip (pyLower id)]⟩) := by
      rw [add_to_favorites, if_pos hc]
    have hc2 := (Bool.and_eq_true _ _).mp hc
    have hdouble : add_to_favorites
        (⟨st.app_usage_stats, st.recent_apps,
          st.favorites ++ [pyStrip (pyLower id)]⟩ : LauncherState) id
        = (false, ⟨st.app_usage_stats, st.recent_apps,
            st.favorites ++ [pyStrip (pyLower id)]⟩) := by
      rw [add_to_favorites, if_neg]
      intro habs
      have h2 := ((Bool.and_eq_true _ _).mp habs).2
      simp at h2
    refine ⟨?_, ?_, ?_, ?_, by decide, by decide, by decide⟩
    · rw [heq]
      constructor
      · intro _
        exact ⟨hc2.1, by simpa using hc2.2⟩
      · intro _
        rfl
    · intro _
      rw [heq]
    · intro hfalse
      rw [heq] at hfalse
      cases hfalse
    · intro _
      rw [heq]
      refine ⟨by rw [hdouble], ?_⟩
      rw [hdouble]
      simp
  · have heq : add_to_favorites st id = (false, st) := by
      rw [add_to_favorites, if_neg hc]
    refine ⟨?_, ?_, ?_, ?_, by decide, by decide, by decide⟩
    · rw [heq]
      constructor
      · intro hfalse
        cases hfalse
      · intro ⟨h1, h2⟩
        exfalso
        apply hc
        rw [h1]
        simpa using h2
    · intro hfalse
      rw [heq] at hfalse
      cases hfalse
    · intro _
      rw [heq]
    · intro hfalse
      rw [heq] at hfalse
      cases hfalse

/-- Removing the first occurrence keeps membership in the original list. -/
theorem mem_pyRemove {a k : String} :
    ∀ r : List String, a ∈ pyRemove k r → a ∈ r := by
  intro r
  induction r with
  | nil => intro h; cases h
  | cons x xs ih =>
    intro h
    by_cases hx : (x == k) = true
    · rw [pyRemove, if_pos hx] at h
      exact List.mem_cons_of_mem _ h
    · rw [pyRemove, if_neg hx] at h
      rcases List.mem_cons.mp h with h1 | h1
      · exact h1 ▸ List.mem_cons_self _ _
      · exact List.mem_cons_of_mem _ (ih h1)

/-- Removing the first occurrence preserves distinctness. -/
theorem pyRemove_nodup (k : String) :
    ∀ r : List String, r.Nodup → (pyRemove k r).Nodup := by
  intro r
  induction r with
  | nil => intro _; exact List.nodup_nil
  | cons x xs ih =>
    intro h
    have hx2 := (List.nodup_cons.mp h).1
    have hxs := (List.nodup_cons.mp h).2
    by_cases hx : (x == k) = true
    · rw [pyRemove, if_pos hx]
      exact hxs
    · rw [pyRemove, if_neg hx]
      exact List.nodup_cons.mpr ⟨fun hmem => hx2 (mem_pyRemove xs hmem), ih hxs⟩

/-- On a duplicate-free list, the removed element is gone entirely. -/
theorem not_mem_pyRemove_self (k : String) :
    ∀ r : List String, r.Nodup → k ∉ pyRemove k r := by
  intro r
  induction r with
  | nil => intro _ h; cases h
  | cons x xs ih =>
    intro h hmem
    have hx2 := (List.nodup_cons.mp h).1
    have hxs := (List.nodup_cons.mp h).2
    by_cases hx : (x == k) = true
    · rw [pyRemove, if_pos hx] at hmem
      have : x = k := by simpa using hx
      subst this
      exact hx2 hmem
    · rw [pyRemove, if_neg hx] at hmem
      rcases List.mem_cons.mp hmem with h1 | h1
      · subst h1
        exact hx (by simp)
      · exact ih hxs h1

/-- Promoting a key keeps the recent list bounded by 20. -/
theorem add_to_recent_length (r : List String) (k : String) :
    (add_to_recent r k).length ≤ 20 :=
  List.length_take_le _ _

/-- Promoting a key keeps the recent list duplicate-free. -/
theorem add_to_recent_nodup (r : List String) (k : String) (h : r.Nodup) :
    (add_to_recent r k).Nodup := by
  rw [add_to_recent]
  apply List.Nodup.sublist (List.take_sublist _ _)
  by_cases hc : r.contains k = true
  · rw [if_pos hc]
    exact List.nodup_cons.mpr ⟨not_mem_pyRemove_self k r h, pyRemove_nodup k r h⟩
  · rw [if_neg hc]
    have hnot : k ∉ r := by
      intro hmem
      apply hc
      simpa using hmem
    exact List.nodup_cons.mpr ⟨hnot, h⟩

/-- Every `launch` preserves the launcher invariants. -/
theorem launch_preserves_inv (st : LauncherState) (id now : String)
    (h : launcherInv st) : launcherInv (launch st id now).2 := by
  cases hfa : find_app installed_apps (pyStrip (pyLower id)) with
  | none =>
    rw [launch_not_found hfa]
    exact h
  | some e =>
    rw [launch_found hfa]
    exact ⟨add_to_recent_length _ _, add_to_recent_nodup _ _ h.2.1, h.2.2⟩

/-- The two possible outcomes of `add_to_favorites`, as states. -/
theorem add_to_favorites_cases (st : LauncherState) (id : String) :
    (add_to_favorites st id).2 = st ∨
    ((find_app installed_apps (pyStrip (pyLower id))).isSome = true ∧
      (add_to_favorites st id).2
        = ⟨st.app_usage_stats, st.recent_apps,
            st.favorites ++ [pyStrip (pyLower id)]⟩) := by
  by_cases hc : ((find_app installed_apps (pyStrip (pyLower id))).isSome &&
      !(st.favorites.contains (pyStrip (pyLower id)))) = true
  · right
    exact ⟨((Bool.and_eq_true _ _).mp hc).1, by rw [add_to_favorites, if_pos hc]⟩
  · left
    rw [add_to_favorites, if_neg hc]

/-- Every `add_to_favorites` preserves the launcher invariants. -/
theorem add_to_favorites_preserves_inv (st : LauncherState) (id : String)
    (h : launcherInv st) : launcherInv (add_to_favorites st id).2 := by
  rcases add_to_favorites_cases st id with heq | ⟨hsome, heq⟩
  · rw [heq]
    exact h
  · rw [heq]
    refine ⟨h.1, h.2.1, ?_⟩
    intro k hk
    rcases List.mem_append.mp hk with h1 | h1
    · exact h.2.2 k h1
    · have : k = pyStrip (pyLower id) := by simpa using h1
      rw [this]
      exact hsome

/-- Every `switch_to_recent` preserves the launcher invariants. -/
theorem switch_to_recent_preserves_inv (st : LauncherState) (index : Nat)
    (now : String) (h : launcherInv st) :
    launcherInv (switch_to_recent st index now).2 := by
  rw [switch_to_recent]
  by_cases hi : st.recent_apps.length ≤ index
  · rw [if_pos hi]
    exact h
  · rw [if_neg hi]
    exact launch_preserves_inv _ _ _ h

/-- A single `launch` never lowers any stored launch count. -/
theorem launch_count_mono (st : LauncherState) (id now k : String) :
    lookup_count st.app_usage_stats k
      ≤ lookup_count (launch st id now).2.app_usage_stats k := by
  cases hfa : find_app installed_apps (pyStrip (pyLower id)) with
  | none =>
    rw [launch_not_found hfa]
  | some e =>
    rw [launch_found hfa]
    show _ ≤ lookup_count (update_usage_stats st.app_usage_stats
        (pyStrip (pyLower id)) now) k
    rw [update_stats_count]
    exact Nat.le_add_right _ _

/-- No single launcher call lowers any stored launch count. -/
theorem apply_op_count_mono (st : LauncherState) (op : LauncherOp) (k : String) :
    lookup_count st.app_usage_stats k
      ≤ lookup_count (apply_op st op).app_usage_stats k := by
  cases op with
  | launchOp id now => exact launch_count_mono st id now k
  | addFavoriteOp id =>
    rcases add_to_favorites_cases st id with heq | ⟨_, heq⟩ <;>
      rw [apply_op, heq]
  | switchRecentOp index now =>
    rw [apply_op, switch_to_recent]
    by_cases hi : st.recent_apps.length ≤ index
    · rw [if_pos hi]
    · rw [if_neg hi]
      exact launch_count_mono _ _ _ k
  | viewOp => exact Nat.le_refl _

/-- Counterexample to C4 as stated: one `add_to_favorites("google maps")`
call puts "google maps" — not a catalogue key — into the favorites list,
so "favorites contains only catalogue keys" fails on reachable states. -/
theorem c4_counterexample :
    (run_ops launcherInit [LauncherOp.addFavoriteOp "google maps"]).favorites
        = ["google maps"] ∧
    (installed_apps.map Prod.fst).contains "google maps" = false := by
  decide

/-- C4 as amended: after any sequence of launcher calls from the initial
state the recent list has at most 20 entries and no duplicate, every
favorite is an identifier that resolves through the fuzzy `find_app`
(it need not be a catalogue key), and no call — nor any call sequence —
ever lowers a stored launch count. -/
theorem c4_invariants (ops : List LauncherOp) :
    launcherInv (run_ops launcherInit ops) ∧
    (∀ (st : LauncherState) (op : LauncherOp) (k : String),
      lookup_count st.app_usage_stats k
        ≤ lookup_count (apply_op st op).app_usage_stats k) ∧
    (∀ (st : LauncherState) (k : String),
      lookup_count st.app_usage_stats k
        ≤ lookup_count (run_ops st ops).app_usage_stats k) := by
  have hpres : ∀ (st : LauncherState) (op : LauncherOp),
      launcherInv st → launcherInv (apply_op st op) := by
    intro st op h
    cases op with
    | launchOp id now => exact launch_preserves_inv st id now h
    | addFavoriteOp id => exact add_to_favorites_preserves_inv st id h
    | switchRecentOp index now => exact switch_to_recent_preserves_inv st index now h
    | viewOp => exact h
  have hrun : ∀ (ops2 : List LauncherOp) (st : LauncherState),
      launcherInv st → launcherInv (run_ops st ops2) := by
    intro ops2
    induction ops2 with
    | nil => intro st h; exact h
    | cons op rest ih => intro st h; exact ih _ (hpres st op h)
  have hmono : ∀ (ops2 : List LauncherOp) (st : LauncherState) (k : String),
      lookup_count st.app_usage_stats k
        ≤ lookup_count (run_ops st ops2).app_usage_stats k := by
    intro ops2
    induction ops2 with
    | nil => intro st k; exact Nat.le_refl _
    | cons op rest ih =>
      intro st k
      exact Nat.le_trans (apply_op_count_mono st op k) (ih (apply_op st op) k)
  refine ⟨hrun ops launcherInit ⟨by decide, by decide, ?_⟩,
    apply_op_count_mono, hmono ops⟩
  intro k hk
  simp [launcherInit] at hk

end AIAgent
